import Mathlib

/-!
Verification of the SKYTECH-3 snapshot core (`src/skytech_snapshot.py`)
against its specification.

The embedding mirrors the pandas/numpy pipeline of the source:

* `Val` models an IEEE-like scalar cell of a pandas frame: `nan` (which
  pandas also uses as the missing-value marker), signed infinities, and a
  finite value carried exactly as a rational.
* Frames are column-major lists of cells; timestamp indices carry an
  optional fixed-offset timezone tag.
* Each Python function of the source is translated to one Lean definition
  with the same name (modulo the leading underscore, which Lean permits
  but we drop).
-/

/-- Scalar cell of a pandas frame: NaN (missing), ±infinity, or a finite
rational. -/
inductive Val where
  | nan : Val
  | inf : Val
  | ninf : Val
  | fin : ℚ → Val
deriving DecidableEq

/-- NaN test, mirroring `pd.isna` on a float cell. -/
def Val.isNan : Val → Bool
  | .nan => true
  | _ => false

/-- IEEE-style addition on cells (NaN propagates; inf + (-inf) is NaN). -/
def Val.add : Val → Val → Val
  | .nan, _ => .nan
  | _, .nan => .nan
  | .inf, .ninf => .nan
  | .ninf, .inf => .nan
  | .inf, _ => .inf
  | _, .inf => .inf
  | .ninf, _ => .ninf
  | _, .ninf => .ninf
  | .fin a, .fin b => .fin (a + b)

/-- IEEE-style negation on cells. -/
def Val.neg : Val → Val
  | .nan => .nan
  | .inf => .ninf
  | .ninf => .inf
  | .fin a => .fin (-a)

/-- IEEE-style subtraction on cells. -/
def Val.sub (a b : Val) : Val := a.add b.neg

/-- IEEE-style multiplication on cells (0 · ∞ is NaN). -/
def Val.mul : Val → Val → Val
  | .nan, _ => .nan
  | _, .nan => .nan
  | .fin a, .fin b => .fin (a * b)
  | .fin a, .inf => if a = 0 then .nan else if 0 < a then .inf else .ninf
  | .inf, .fin b => if b = 0 then .nan else if 0 < b then .inf else .ninf
  | .fin a, .ninf => if a = 0 then .nan else if 0 < a then .ninf else .inf
  | .ninf, .fin b => if b = 0 then .nan else if 0 < b then .ninf else .inf
  | .inf, .inf => .inf
  | .inf, .ninf => .ninf
  | .ninf, .inf => .ninf
  | .ninf, .ninf => .inf

/-- IEEE-style division on cells: x/0 follows the sign of x (0/0 is NaN),
finite/∞ is 0, ∞/∞ is NaN, as in numpy float arithmetic. -/
def Val.div : Val → Val → Val
  | .nan, _ => .nan
  | _, .nan => .nan
  | .fin a, .fin b =>
      if b = 0 then (if a = 0 then .nan else if 0 < a then .inf else .ninf)
      else .fin (a / b)
  | .fin _, .inf => .fin 0
  | .fin _, .ninf => .fin 0
  | .inf, .fin b => if 0 ≤ b then .inf else .ninf
  | .ninf, .fin b => if 0 ≤ b then .ninf else .inf
  | .inf, .inf => .nan
  | .inf, .ninf => .nan
  | .ninf, .inf => .nan
  | .ninf, .ninf => .nan

/-- Sum of a list of cells, as numpy would fold it. -/
def sumVals (l : List Val) : Val := l.foldl Val.add (Val.fin 0)

/-- Mean of a row of cells with NaN skipped, mirroring
`DataFrame.mean(axis=1)` (skipna defaults to true; an all-NaN row yields
NaN; the divisor is the count of non-NaN cells). -/
def npMean (l : List Val) : Val :=
  let xs := l.filter (fun v => !v.isNan)
  if xs.isEmpty then Val.nan
  else (sumVals xs).div (Val.fin (xs.length : ℚ))

/-- Round half to even on rationals, following `np.round`. -/
def roundHalfEven (q : ℚ) : ℤ :=
  let f := ⌊q⌋
  let r := q - (f : ℚ)
  if r < 1/2 then f else if 1/2 < r then f + 1 else if f % 2 = 0 then f else f + 1

/-- Rounding a cell to two decimals, mirroring `np.round(x, 2)` (NaN and
infinities pass through). -/
def round2 : Val → Val
  | .fin q => .fin ((roundHalfEven (q * 100) : ℚ) / 100)
  | v => v

example : npMean [Val.nan, Val.fin 2, Val.fin 4] = Val.fin 3 := by
  norm_num [npMean, sumVals, Val.add, Val.isNan, Val.div]
example : npMean [Val.nan, Val.nan] = Val.nan := by
  norm_num [npMean, Val.isNan]
example : round2 (Val.fin (12345/1000)) = Val.fin (1234/100) := by
  norm_num [round2, roundHalfEven]

/-- Timestamp index of a frame. `tz` is the fixed UTC offset in minutes
(`none` for a timezone-naive index). For an aware index, `stamps` are
absolute instants in minutes since the epoch; for a naive index they are
the wall-clock readings. -/
structure DTIndex where
  tz : Option ℤ
  stamps : List ℤ
deriving DecidableEq

/-- JST is a fixed offset of +9 hours = 540 minutes. -/
def JSTmin : ℤ := 540

/-- Interpreting a naive index as UTC (`tz_localize("UTC")`): UTC wall
clock equals the absolute instant. -/
def tz_localize_utc (idx : DTIndex) : DTIndex :=
  { tz := some 0, stamps := idx.stamps }

/-- Converting an aware index to another offset (`tz_convert`): the
absolute instants are unchanged, only the display offset moves. -/
def tz_convert (off : ℤ) (idx : DTIndex) : DTIndex :=
  { tz := some off, stamps := idx.stamps }

/-- Index normalization as performed in `fetch_for`: a naive index is
localized to UTC, then the index is converted to JST. -/
def normalizeIdx (idx : DTIndex) : DTIndex :=
  tz_convert JSTmin (if idx.tz.isNone then tz_localize_utc idx else idx)

/-- Calendar date (as a day number) of an absolute instant, read in JST;
this is `index.date` after conversion to JST. -/
def jstDateOf (instant : ℤ) : ℤ := (instant + JSTmin).fdiv 1440

/-- Raw intraday bars for one ticker as returned by the provider: a
timestamp index plus Open and Close columns. -/
structure Bars where
  idx : DTIndex
  opens : List Val
  closes : List Val
deriving DecidableEq

/-- Rows (timestamp, open, close) of a bar table falling on the JST
calendar date `date0`, after index normalization; this is
`dfi[dfi.index.date == date0.date()]`. -/
def sessionRows (bars : Bars) (date0 : ℤ) : List (ℤ × Val × Val) :=
  ((normalizeIdx bars.idx).stamps.zip (bars.opens.zip bars.closes)).filter
    (fun r => jstDateOf r.1 = date0)

/-- Per-ticker percent-vs-open series of `fetch_for`: skip an empty
download, filter to the session date, skip an empty session, then
`pct = (Close / price0 - 1) * 100` where `price0` is the first session
row's Open. -/
def tickerPct (bars : Bars) (date0 : ℤ) : Option (List (ℤ × Val)) :=
  if bars.idx.stamps.isEmpty then none
  else
    match sessionRows bars date0 with
    | [] => none
    | r0 :: rest =>
        some ((r0 :: rest).map
          (fun r => (r.1, ((r.2.2.div r0.2.1).sub (Val.fin 1)).mul (Val.fin 100))))

/-- One attempt of `fetch_for(date0)`. The collaborator `fetch` stands
for `yf.download(t, period="1d", interval="5m")` guarded by the
`try/except` (an exception or any failure is `none`, an empty frame is a
`Bars` with an empty index); the date filter is applied afterwards, as in
the source. Tickers without usable session data are dropped. -/
def fetch_for (fetch : String → Option Bars) (tickers : List String) (date0 : ℤ) :
    List (String × List (ℤ × Val)) :=
  tickers.filterMap (fun t =>
    match fetch t with
    | none => none
    | some bars => (tickerPct bars date0).map (fun s => (t, s)))

/-- Bounded look-back of `_download_intraday`: try the target date, then
one, two, three days earlier, stopping at the first non-empty combined
result; the last attempt is returned even if empty. -/
def download_intraday (fetch : String → Option Bars) (tickers : List String)
    (target_date : ℤ) : List (String × List (ℤ × Val)) :=
  let df := fetch_for fetch tickers target_date
  if !df.isEmpty then df
  else
    let d1 := fetch_for fetch tickers (target_date - 1)
    if !d1.isEmpty then d1
    else
      let d2 := fetch_for fetch tickers (target_date - 2)
      if !d2.isEmpty then d2
      else fetch_for fetch tickers (target_date - 3)

/-- Value of a per-ticker series at a timestamp, NaN when the timestamp
is absent — the cell the outer join of `pd.concat(frames, axis=1)` puts
in that ticker's column. -/
def lookupTS (s : List (ℤ × Val)) (t : ℤ) : Val :=
  ((s.find? (fun p => p.1 = t)).map Prod.snd).getD Val.nan

/-- Basket average at one timestamp: the NaN-skipping row mean over every
ticker's cell there (`iday.mean(axis=1)` at that row). -/
def meanAt (frames : List (String × List (ℤ × Val))) (t : ℤ) : Val :=
  npMean (frames.map (fun f => lookupTS f.2 t))

/-- Ordered insertion without duplicates, for building a sorted union of
timestamps. -/
def insertTS (x : ℤ) : List ℤ → List ℤ
  | [] => [x]
  | y :: ys => if x = y then y :: ys else if x < y then x :: y :: ys else y :: insertTS x ys

/-- Sorted union of all timestamps of the per-ticker series — the row
index produced by `pd.concat(frames, axis=1).sort_index()`. -/
def unionTS (frames : List (String × List (ℤ × Val))) : List ℤ :=
  ((frames.map (fun f => f.2.map Prod.fst)).flatten).foldr insertTS []

/-- Combined basket series: the outer-join mean across tickers at every
timestamp of the union index (`iday.mean(axis=1)` as a series). -/
def meanSeries (frames : List (String × List (ℤ × Val))) : List (ℤ × Val) :=
  (unionTS frames).map (fun t => (t, meanAt frames t))

example : normalizeIdx ⟨none, [0, 5]⟩ = ⟨some 540, [0, 5]⟩ := by decide
example : jstDateOf (-540) = 0 := by decide
example :
    meanSeries [("A", [(0, Val.fin 1)]), ("B", [(0, Val.fin 3), (5, Val.fin 7)])] =
      [(0, Val.fin 2), (5, Val.fin 7)] := by
  norm_num [meanSeries, unionTS, insertTS, meanAt, npMean, lookupTS, sumVals,
    Val.add, Val.isNan, Val.div, List.find?, List.filter, List.isEmpty]

/-- Daily price frame: a shared date index and one named column of cells
per ticker (NaN marks a missing observation). -/
structure DailyFrame where
  dates : List ℤ
  cols : List (String × List Val)
deriving DecidableEq

/-- Emptiness of a frame (`df.empty`): no rows or no columns. -/
def DailyFrame.isEmptyB (d : DailyFrame) : Bool :=
  d.dates.isEmpty || d.cols.isEmpty

/-- Forward fill of a column given the last value seen so far (`ffill`):
a NaN cell takes the carried value, a non-NaN cell replaces it. -/
def ffillAux (last : Val) : List Val → List Val
  | [] => []
  | v :: vs =>
      let w := if v.isNan then last else v
      w :: ffillAux w vs

/-- Backward fill of a column (`bfill`): a NaN cell takes the next value
below it after that suffix has itself been filled (which is its nearest
non-NaN successor, or NaN when none exists). -/
def bfillCol : List Val → List Val
  | [] => []
  | v :: vs =>
      let rest := bfillCol vs
      (if v.isNan then rest.headD Val.nan else v) :: rest

/-- Forward fill then backward fill of one column
(`daily.ffill().bfill()` acts column by column). -/
def fillCol (c : List Val) : List Val :=
  bfillCol (ffillAux Val.nan c)

/-- Normalized column: the filled column divided by its own first filled
value (`daily.ffill().bfill().div(base)` with
`base = daily.ffill().bfill().iloc[0]`). -/
def normCol (c : List Val) : List Val :=
  let f := fillCol c
  f.map (fun v => v.div (f.headD Val.nan))

/-- Head cell of each column — one row across the frame, NaN past a
column's end. -/
def headsRow (cols : List (List Val)) : List Val :=
  cols.map (fun c => c.headD Val.nan)

/-- Date-indexed series of row means scaled by the base level, walking
the columns positionally in date order (`norm.mean(axis=1) * base_level`
row by row). -/
def rowLevels (dates : List ℤ) (cols : List (List Val)) (bl : ℚ) : List (ℤ × Val) :=
  match dates with
  | [] => []
  | d :: ds =>
      (d, (npMean (headsRow cols)).mul (Val.fin bl)) ::
        rowLevels ds (cols.map List.tail) bl

/-- Equal-weight daily level builder `build_levels_eq`: on an empty frame
the empty series, otherwise fill, normalize each column by its first
value, average across columns per row, and scale by `base_level`. -/
def build_levels_eq (daily : DailyFrame) (base_level : ℚ) : List (ℤ × Val) :=
  if daily.isEmptyB then []
  else rowLevels daily.dates (daily.cols.map (fun p => normCol p.2)) base_level

/-- Scaling a column of prices by a constant factor. -/
def scaleCol (c : ℚ) (col : List Val) : List Val :=
  col.map (fun v => (Val.fin c).mul v)

/-- Frame with one ticker's entire price series multiplied by `c`. -/
def scaleTicker (daily : DailyFrame) (t : String) (c : ℚ) : DailyFrame :=
  { daily with
    cols := daily.cols.map (fun p => if p.1 = t then (p.1, scaleCol c p.2) else p) }

/-- Raw daily response of the provider: flat field-named columns for a
single ticker, or two-level `(l0, l1)` column keys for several. -/
inductive RawDaily where
  | flat (cols : List (String × List Val)) : RawDaily
  | multi (cols : List ((String × String) × List Val)) : RawDaily
deriving DecidableEq

/-- Column selection of `df.xs(field, axis=1, level=1)`: keep the columns
whose second-level label is `field`, keyed by their first-level label. -/
def xsLevel1 (field : String) (cols : List ((String × String) × List Val)) :
    List (String × List Val) :=
  cols.filterMap (fun p => if p.1.2 = field then some (p.1.1, p.2) else none)

/-- Column selection of `df.xs(field, axis=1, level=0)`. -/
def xsLevel0 (field : String) (cols : List ((String × String) × List Val)) :
    List (String × List Val) :=
  cols.filterMap (fun p => if p.1.1 = field then some (p.1.2, p.2) else none)

/-- Daily extractor `_download_daily` applied to a provider response.
Flat response: use the `Adj Close` column, else `Close`, named after the
first ticker (a missing fallback column is a `KeyError`). Two-level
response: prefer `Adj Close` on level 1, then level 0, then `Close` on
level 1, then level 0 (`df.xs` on an absent key is a `KeyError`). Row
sorting by date is not re-modelled; rows stay in response order. -/
def download_daily (tickers : List String) (df : RawDaily) :
    Except String (List (String × List Val)) :=
  match df with
  | .flat cols =>
      match cols.find? (fun p => p.1 = "Adj Close") with
      | some p => .ok [(tickers.headD "", p.2)]
      | none =>
          match cols.find? (fun p => p.1 = "Close") with
          | some p => .ok [(tickers.headD "", p.2)]
          | none => .error "KeyError"
  | .multi cols =>
      if (cols.map (fun p => p.1.2)).contains "Adj Close" then
        .ok (xsLevel1 "Adj Close" cols)
      else if (cols.map (fun p => p.1.1)).contains "Adj Close" then
        .ok (xsLevel0 "Adj Close" cols)
      else if (cols.map (fun p => p.1.2)).contains "Close" then
        .ok (xsLevel1 "Close" cols)
      else if (cols.map (fun p => p.1.1)).contains "Close" then
        .ok (xsLevel0 "Close" cols)
      else .error "KeyError"

/-- Keep the positions of a column flagged `true` in the mask. -/
def maskCol : List Bool → List Val → List Val
  | k :: ks, v :: vs => if k then v :: maskCol ks vs else maskCol ks vs
  | _, _ => []

/-- Row filter `daily[daily.index >= base_date]`, keeping the positions
whose date is at least `base`. -/
def filterFrom (base : ℤ) (f : DailyFrame) : DailyFrame :=
  let keep := f.dates.map (fun d => decide (base ≤ d))
  { dates := f.dates.filter (fun d => decide (base ≤ d)),
    cols := f.cols.map (fun p => (p.1, maskCol keep p.2)) }

/-- Daily frame used by `main`: the extracted columns over the response's
date index, restricted to dates at or after `base_date` unless empty. -/
def mainDaily (baseDate : ℤ) (rawDates : List ℤ) (cols : List (String × List Val)) :
    DailyFrame :=
  let daily : DailyFrame := { dates := rawDates, cols := cols }
  if daily.isEmptyB then daily else filterFrom baseDate daily

example :
    build_levels_eq ⟨[0, 1, 2], [("A", [Val.fin 100, Val.fin 101, Val.fin 102]),
      ("B", [Val.fin 200, Val.fin 198, Val.fin 204])]⟩ 1000 =
      [(0, Val.fin 1000), (1, Val.fin 1000), (2, Val.fin 1020)] := by
  norm_num [build_levels_eq, DailyFrame.isEmptyB, normCol, fillCol, bfillCol, ffillAux,
    rowLevels, headsRow, npMean, sumVals, Val.add, Val.isNan, Val.div, Val.mul]

/-- Observable step of one run of `main`: a core computation finishing,
or an output artifact being written. -/
inductive Event where
  | computeLevels : Event
  | computeIntraday : Event
  | computeStats : Event
  | write (name : String) : Event
deriving DecidableEq

/-- Stats record assembled by `main` (the wall-clock `updated_at` field
and the constant `key`/`unit` fields carry no computed content and are
not modelled). -/
structure SnapshotStats where
  pct_intraday : Val
  last_level : Option Val
  tickers : List String
deriving DecidableEq

/-- Last value of a series (`iloc[-1]`), NaN on an empty series. -/
def lastVal (s : List (ℤ × Val)) : Val := (s.getLastD (0, Val.nan)).2

/-- One run of `main`, from the collaborator inputs to the ordered event
trace and the stats record: extract the daily table (aborting the run on
an extraction error, before anything is written), build and write the
level series, build the intraday basket series and write it when
non-empty, then derive and write the stats and text artifacts. -/
def mainRun (tickers : List String) (baseDate : ℤ) (base_level : ℚ)
    (rawDates : List ℤ) (raw : RawDaily) (fetch : String → Option Bars)
    (today : ℤ) : List Event × Option SnapshotStats :=
  match download_daily tickers raw with
  | .error _ => ([], none)
  | .ok cols =>
      let daily := mainDaily baseDate rawDates cols
      let levels := build_levels_eq daily base_level
      let iday := download_intraday fetch tickers today
      let intraday := if iday.isEmpty then [] else meanSeries iday
      let pct_now := if intraday.isEmpty then Val.fin 0 else round2 (lastVal intraday)
      let last_level := if levels.isEmpty then none else some (round2 (lastVal levels))
      ([Event.computeLevels, Event.write "skytech_3_levels.csv",
        Event.computeIntraday] ++
        (if intraday.isEmpty then [] else [Event.write "skytech_3_intraday.csv"]) ++
        [Event.computeStats, Event.write "skytech_3_stats.json",
         Event.write "last_run.txt", Event.write "skytech_3_post_intraday.txt",
         Event.write "post_intraday.txt"],
       some { pct_intraday := pct_now, last_level := last_level, tickers := tickers })

/-- Claim C9: the timezone normalizer is idempotent, an index already in
the canonical JST fixed offset is returned identically, and the instants
of any timezone-aware index are converted directly (never reinterpreted). -/
theorem normalizeIdx_idempotent (idx : DTIndex) :
    (idx.tz = some JSTmin → normalizeIdx idx = idx)
    ∧ (idx.tz ≠ none → (normalizeIdx idx).stamps = idx.stamps)
    ∧ normalizeIdx (normalizeIdx idx) = normalizeIdx idx := by
  obtain ⟨tz, stamps⟩ := idx
  refine ⟨fun h => ?_, fun _ => ?_, ?_⟩
  · simp only [DTIndex.mk.injEq] at h ⊢
    cases tz with
    | none => cases h
    | some a =>
        simp only [Option.some.injEq] at h
        simp [normalizeIdx, tz_convert, h]
  · cases tz <;> simp [normalizeIdx, tz_convert, tz_localize_utc]
  · cases tz <;> simp [normalizeIdx, tz_convert, tz_localize_utc]

/-- Spot check of `normalizeIdx_idempotent` on concrete indices. -/
theorem normalizeIdx_idempotent_spot :
    normalizeIdx ⟨some JSTmin, [3, 7]⟩ = ⟨some JSTmin, [3, 7]⟩
    ∧ (normalizeIdx ⟨some 0, [5]⟩).stamps = [5]
    ∧ normalizeIdx (normalizeIdx ⟨none, [2]⟩) = normalizeIdx ⟨none, [2]⟩ :=
  ⟨(normalizeIdx_idempotent ⟨some JSTmin, [3, 7]⟩).1 rfl,
   (normalizeIdx_idempotent ⟨some 0, [5]⟩).2.1 (by simp),
   (normalizeIdx_idempotent ⟨none, [2]⟩).2.2⟩

/-- Claim C3: the intraday builder returns the first non-empty
`fetch_for` result among the target date and the three preceding days,
unchanged; after three empty retries it returns the fourth attempt as is
(in particular, an empty series — not an error — when all four are
empty). -/
theorem download_intraday_fallback (fetch : String → Option Bars)
    (tickers : List String) (D : ℤ) :
    (∀ r, fetch_for fetch tickers D = r → r ≠ [] →
        download_intraday fetch tickers D = r)
    ∧ (∀ r, fetch_for fetch tickers D = [] → fetch_for fetch tickers (D - 1) = r →
        r ≠ [] → download_intraday fetch tickers D = r)
    ∧ (∀ r, fetch_for fetch tickers D = [] → fetch_for fetch tickers (D - 1) = [] →
        fetch_for fetch tickers (D - 2) = r → r ≠ [] →
        download_intraday fetch tickers D = r)
    ∧ (fetch_for fetch tickers D = [] → fetch_for fetch tickers (D - 1) = [] →
        fetch_for fetch tickers (D - 2) = [] →
        download_intraday fetch tickers D = fetch_for fetch tickers (D - 3)) := by
  refine ⟨fun r h0 hne => ?_, fun r h0 h1 hne => ?_, fun r h0 h1 h2 hne => ?_,
    fun h0 h1 h2 => ?_⟩
  · simp [download_intraday, h0, List.isEmpty_iff, hne]
  · simp [download_intraday, h0, h1, List.isEmpty_iff, hne]
  · simp [download_intraday, h0, h1, h2, List.isEmpty_iff, hne]
  · simp [download_intraday, h0, h1, h2, List.isEmpty_iff]

/-- Spot check of `download_intraday_fallback`: a feed whose only bars
fall two days before the target is returned unchanged from the second
retry, and an always-failing feed yields the empty series. -/
theorem download_intraday_fallback_spot :
    download_intraday (fun _ => some ⟨⟨some 540, [10980]⟩, [Val.fin 100], [Val.fin 100]⟩)
        ["A"] 10 = [("A", [(10980, Val.fin 0)])]
    ∧ download_intraday (fun _ => none) ["A"] 10 = [] := by
  have hd : jstDateOf 10980 = 8 := by decide
  constructor
  · refine (download_intraday_fallback _ ["A"] 10).2.2.1 _ ?_ ?_ ?_ (by simp)
    · simp [fetch_for, tickerPct, sessionRows, normalizeIdx, tz_convert, hd]
    · simp [fetch_for, tickerPct, sessionRows, normalizeIdx, tz_convert, hd]
    · norm_num [fetch_for, tickerPct, sessionRows, normalizeIdx, tz_convert, hd,
        Val.div, Val.sub, Val.neg, Val.add, Val.mul, List.filterMap_cons]
  · have h := (download_intraday_fallback (fun _ => none) ["A"] 10).2.2.2
      (by simp [fetch_for]) (by simp [fetch_for]) (by simp [fetch_for])
    simpa [fetch_for] using h

/-- Filling preserves a non-missing first observation. -/
theorem fillCol_headD_of_fin (c : List Val) (q : ℚ)
    (h : c.headD Val.nan = Val.fin q) : (fillCol c).headD Val.nan = Val.fin q := by
  cases c with
  | nil => simp at h
  | cons v vs =>
      simp only [List.headD_cons] at h
      simp [fillCol, ffillAux, bfillCol, h, Val.isNan]

/-- First entry of a normalized column is its first filled value divided
by itself: always NaN or exactly 1. -/
theorem normCol_headD_cases (c : List Val) :
    (normCol c).headD Val.nan = Val.nan ∨ (normCol c).headD Val.nan = Val.fin 1 := by
  unfold normCol
  cases hf : fillCol c with
  | nil => simp
  | cons w rest =>
      simp only [List.map_cons, List.headD_cons]
      cases w with
      | nan => simp [Val.div]
      | inf => simp [Val.div]
      | ninf => simp [Val.div]
      | fin a =>
          by_cases ha : a = 0
          · simp [Val.div, ha]
          · right; simp [Val.div, ha, div_self ha]

/-- A column with a non-missing, nonzero first observation normalizes to
exactly 1 at the first row. -/
theorem normCol_headD_of_fin (c : List Val) (q : ℚ)
    (h : c.headD Val.nan = Val.fin q) (hq : q ≠ 0) :
    (normCol c).headD Val.nan = Val.fin 1 := by
  have hf := fillCol_headD_of_fin c q h
  unfold normCol
  cases hfc : fillCol c with
  | nil => rw [hfc] at hf; simp at hf
  | cons w rest =>
      rw [hfc] at hf
      simp only [List.headD_cons] at hf
      subst hf
      simp [Val.div, hq, div_self hq]

/-- Folding cell addition over a list of exact ones counts them. -/
theorem foldl_add_ones (xs : List Val) : ∀ a : ℚ, (∀ v ∈ xs, v = Val.fin 1) →
    xs.foldl Val.add (Val.fin a) = Val.fin (a + xs.length) := by
  induction xs with
  | nil => intro a _; simp
  | cons x xs ih =>
      intro a h
      have hx : x = Val.fin 1 := h x (by simp)
      rw [List.foldl_cons, hx, show Val.add (Val.fin a) (Val.fin 1) = Val.fin (a + 1) from rfl,
        ih (a + 1) (fun v hv => h v (by simp [hv]))]
      congr 1
      simp only [List.length_cons, Nat.cast_add, Nat.cast_one]
      ring

/-- The NaN-skipping mean of a row whose cells are all NaN or exactly 1,
with at least one 1, is exactly 1. -/
theorem npMean_ones (l : List Val) (h1 : ∀ v ∈ l, v = Val.nan ∨ v = Val.fin 1)
    (h2 : Val.fin 1 ∈ l) : npMean l = Val.fin 1 := by
  unfold npMean
  have hall : ∀ v ∈ l.filter (fun v => !v.isNan), v = Val.fin 1 := by
    intro v hv
    rw [List.mem_filter] at hv
    rcases h1 v hv.1 with h | h
    · rw [h] at hv; simp [Val.isNan] at hv
    · exact h
  have hmem : Val.fin 1 ∈ l.filter (fun v => !v.isNan) := by
    rw [List.mem_filter]; exact ⟨h2, by simp [Val.isNan]⟩
  have hne : l.filter (fun v => !v.isNan) ≠ [] := List.ne_nil_of_mem hmem
  rw [if_neg (by simpa [List.isEmpty_iff] using hne)]
  rw [show sumVals (l.filter (fun v => !v.isNan)) =
      Val.fin (0 + (l.filter (fun v => !v.isNan)).length) from
    foldl_add_ones _ 0 hall]
  have hlen : ((l.filter (fun v => !v.isNan)).length : ℚ) ≠ 0 := by
    have : (l.filter (fun v => !v.isNan)).length ≠ 0 := by
      simpa [List.length_eq_zero] using hne
    exact_mod_cast this
  simp [Val.div, hlen, div_self hlen]

/-- Claim C1: for a daily table with a (nonzero) observation on the first
date for at least one ticker, the first value of the level series built
by `build_levels_eq` is exactly the configured base level (hence within
any relative floating tolerance). -/
theorem build_levels_eq_first (daily : DailyFrame) (bl : ℚ) (d0 : ℤ) (ds : List ℤ)
    (p : String × List Val) (q : ℚ)
    (hdates : daily.dates = d0 :: ds) (hmem : p ∈ daily.cols)
    (hq : p.2.headD Val.nan = Val.fin q) (hq0 : q ≠ 0) :
    (build_levels_eq daily bl).headD (0, Val.nan) = (d0, Val.fin bl) := by
  have hcols : daily.cols ≠ [] := List.ne_nil_of_mem hmem
  have hemp : daily.isEmptyB = false := by
    simp [DailyFrame.isEmptyB, hdates, List.isEmpty_iff, hcols]
  unfold build_levels_eq
  rw [hemp, hdates]
  simp only [Bool.false_eq_true, if_false, rowLevels, List.headD_cons]
  have hmean : npMean (headsRow (daily.cols.map (fun p => normCol p.2))) = Val.fin 1 := by
    apply npMean_ones
    · intro v hv
      simp only [headsRow, List.map_map, List.mem_map, Function.comp] at hv
      obtain ⟨c, _, hc⟩ := hv
      rw [← hc]
      exact normCol_headD_cases c.2
    · simp only [headsRow, List.map_map, List.mem_map, Function.comp]
      exact ⟨p, hmem, normCol_headD_of_fin p.2 q hq hq0⟩
  rw [hmean]
  simp [Val.mul]

/-- Spot check of `build_levels_eq_first` on a one-ticker table. -/
theorem build_levels_eq_first_spot :
    (build_levels_eq ⟨[0, 1], [("A", [Val.fin 100, Val.fin 101])]⟩ 1000).headD
        (0, Val.nan) = (0, Val.fin 1000) :=
  build_levels_eq_first ⟨[0, 1], [("A", [Val.fin 100, Val.fin 101])]⟩ 1000 0 [1]
    ("A", [Val.fin 100, Val.fin 101]) 100 rfl (by simp) rfl (by norm_num)

/-- Row levels carry exactly the input dates, one output row per date. -/
theorem rowLevels_map_fst (dates : List ℤ) :
    ∀ (cols : List (List Val)) (bl : ℚ),
      (rowLevels dates cols bl).map Prod.fst = dates := by
  induction dates with
  | nil => intro cols bl; simp [rowLevels]
  | cons d ds ih => intro cols bl; simp [rowLevels, ih]

/-- Claim C4 (amended): `build_levels_eq` never signals an error — for
every input frame, including frames whose tickers have zero or negative
first filled values, it produces one level per input date (the division
is performed, propagating NaN/∞ artifacts instead of raising). -/
theorem build_levels_eq_total (daily : DailyFrame) (bl : ℚ) :
    (build_levels_eq daily bl).map Prod.fst =
      if daily.isEmptyB then [] else daily.dates := by
  unfold build_levels_eq
  split
  · simp
  · exact rowLevels_map_fst daily.dates _ bl

/-- Claim C4 (counterexample): on a table whose single ticker has a zero
first value, `build_levels_eq` does not fail with any error — it divides
by the zero base and returns the NaN/∞ division artifacts. -/
theorem build_levels_eq_zero_base_artifact :
    build_levels_eq ⟨[0, 1], [("A", [Val.fin 0, Val.fin 5])]⟩ 1000
      = [(0, Val.nan), (1, Val.inf)] := by
  norm_num [build_levels_eq, DailyFrame.isEmptyB, normCol, fillCol, bfillCol,
    ffillAux, rowLevels, headsRow, npMean, sumVals, Val.add, Val.isNan,
    Val.div, Val.mul]

/-- Scaling by a nonzero factor maps NaN cells to NaN cells and nothing
else to NaN. -/
theorem scale_isNan (c : ℚ) (hc : c ≠ 0) (v : Val) :
    ((Val.fin c).mul v).isNan = v.isNan := by
  cases v with
  | nan => rfl
  | fin a => rfl
  | inf =>
      simp only [Val.mul, hc, if_false]
      split <;> rfl
  | ninf =>
      simp only [Val.mul, hc, if_false]
      split <;> rfl

/-- Scaling commutes with forward filling. -/
theorem ffillAux_scale (c : ℚ) (hc : c ≠ 0) :
    ∀ (l : List Val) (last : Val),
      ffillAux ((Val.fin c).mul last) (l.map (fun v => (Val.fin c).mul v)) =
        (ffillAux last l).map (fun v => (Val.fin c).mul v) := by
  intro l
  induction l with
  | nil => intro last; simp [ffillAux]
  | cons v vs ih =>
      intro last
      have hw : (if ((Val.fin c).mul v).isNan then (Val.fin c).mul last
          else (Val.fin c).mul v) = (Val.fin c).mul (if v.isNan then last else v) := by
        rw [scale_isNan c hc v]
        exact (apply_ite (fun x => (Val.fin c).mul x) _ _ _).symm
      simp only [List.map_cons, ffillAux]
      rw [hw, ih]

/-- Scaling commutes with taking the first cell (NaN default). -/
theorem headD_scale (c : ℚ) (l : List Val) :
    (l.map (fun v => (Val.fin c).mul v)).headD Val.nan =
      (Val.fin c).mul (l.headD Val.nan) := by
  cases l <;> simp [Val.mul]

/-- Scaling commutes with backward filling. -/
theorem bfillCol_scale (c : ℚ) (hc : c ≠ 0) :
    ∀ l : List Val, bfillCol (l.map (fun v => (Val.fin c).mul v)) =
      (bfillCol l).map (fun v => (Val.fin c).mul v) := by
  intro l
  induction l with
  | nil => simp [bfillCol]
  | cons v vs ih =>
      simp only [List.map_cons, bfillCol]
      rw [scale_isNan c hc v, ih, headD_scale]
      rw [show (if v.isNan then (Val.fin c).mul (( bfillCol vs).headD Val.nan)
          else (Val.fin c).mul v) = (Val.fin c).mul
            (if v.isNan then (bfillCol vs).headD Val.nan else v) from
        (apply_ite (fun x => (Val.fin c).mul x) _ _ _).symm]

/-- Forward fill from a NaN seed commutes with scaling. -/
theorem ffill_scale_nan (c : ℚ) (hc : c ≠ 0) (l : List Val) :
    ffillAux Val.nan (l.map (fun v => (Val.fin c).mul v)) =
      (ffillAux Val.nan l).map (fun v => (Val.fin c).mul v) := by
  have h := ffillAux_scale c hc l Val.nan
  rwa [show (Val.fin c).mul Val.nan = Val.nan from rfl] at h

/-- Scaling commutes with the fill stage. -/
theorem fillCol_scale (c : ℚ) (hc : c ≠ 0) (col : List Val) :
    fillCol (scaleCol c col) = scaleCol c (fillCol col) := by
  unfold fillCol scaleCol
  rw [ffill_scale_nan c hc, bfillCol_scale c hc]

/-- Dividing two cells both scaled by the same positive factor gives the
unscaled quotient (signs and zeroness are preserved, so every IEEE branch
agrees). -/
theorem div_scale (c : ℚ) (hc : 0 < c) (v w : Val) :
    ((Val.fin c).mul v).div ((Val.fin c).mul w) = v.div w := by
  have hc0 : c ≠ 0 := ne_of_gt hc
  have hsc : ∀ b : ℚ, 0 ≤ c * b ↔ 0 ≤ b := fun b =>
    ⟨fun h => nonneg_of_mul_nonneg_right h hc, fun h => mul_nonneg (le_of_lt hc) h⟩
  have hsp : ∀ b : ℚ, 0 < c * b ↔ 0 < b := fun b => by
    constructor
    · intro h; nlinarith
    · intro h; positivity
  have hsz : ∀ b : ℚ, c * b = 0 ↔ b = 0 := fun b => by
    simp [mul_eq_zero, hc0]
  cases v with
  | nan => cases w <;> simp [Val.mul, Val.div, hc0, hc]
  | inf =>
      cases w with
      | nan => simp [Val.mul, Val.div, hc0, hc]
      | inf => simp [Val.mul, Val.div, hc0, hc]
      | ninf => simp [Val.mul, Val.div, hc0, hc]
      | fin b => simp [Val.mul, Val.div, hc0, hc, hsc b]
  | ninf =>
      cases w with
      | nan => simp [Val.mul, Val.div, hc0, hc]
      | inf => simp [Val.mul, Val.div, hc0, hc]
      | ninf => simp [Val.mul, Val.div, hc0, hc]
      | fin b => simp [Val.mul, Val.div, hc0, hc, hsc b]
  | fin a =>
      cases w with
      | nan => simp [Val.mul, Val.div]
      | inf => simp [Val.mul, Val.div, hc0, hc]
      | ninf => simp [Val.mul, Val.div, hc0, hc]
      | fin b =>
          simp only [Val.mul, Val.div, hsz b, hsz a, hsp a]
          rcases eq_or_ne b 0 with hb | hb
          · simp [hb]
          · simp [hb, mul_div_mul_left a b hc0]

/-- Normalizing a column is invariant under scaling its prices by a
positive constant: the column is divided by its own (equally scaled)
first filled value. -/
theorem normCol_scale (c : ℚ) (hc : 0 < c) (col : List Val) :
    normCol (scaleCol c col) = normCol col := by
  have hc0 : c ≠ 0 := ne_of_gt hc
  unfold normCol
  rw [fillCol_scale c hc0 col]
  show (scaleCol c (fillCol col)).map _ = _
  unfold scaleCol
  rw [headD_scale, List.map_map]
  congr 1
  funext v
  exact div_scale c hc v _

/-- Claim C10: multiplying one ticker's entire daily price series by a
positive constant leaves the output of `build_levels_eq` unchanged. -/
theorem build_levels_eq_scale_invariant (daily : DailyFrame) (t : String) (c : ℚ)
    (hc : 0 < c) (bl : ℚ) :
    build_levels_eq (scaleTicker daily t c) bl = build_levels_eq daily bl := by
  obtain ⟨dates, cols⟩ := daily
  have hmap : (cols.map (fun p => if p.1 = t then (p.1, scaleCol c p.2) else p)).map
      (fun p => normCol p.2) = cols.map (fun p => normCol p.2) := by
    rw [List.map_map]
    congr 1
    funext p
    by_cases hp : p.1 = t
    · simp [Function.comp, hp, normCol_scale c hc]
    · simp [Function.comp, hp]
  have hemp : (cols.map (fun p => if p.1 = t then (p.1, scaleCol c p.2) else p)).isEmpty
      = cols.isEmpty := by
    cases cols <;> simp
  simp only [build_levels_eq, scaleTicker, DailyFrame.isEmptyB, hmap, hemp]

/-- Spot check of `build_levels_eq_scale_invariant` with factor 2. -/
theorem build_levels_eq_scale_invariant_spot :
    build_levels_eq (scaleTicker ⟨[0, 1], [("A", [Val.fin 100, Val.fin 101]),
        ("B", [Val.fin 50, Val.fin 51])]⟩ "A" 2) 1000
      = build_levels_eq ⟨[0, 1], [("A", [Val.fin 100, Val.fin 101]),
        ("B", [Val.fin 50, Val.fin 51])]⟩ 1000 :=
  build_levels_eq_scale_invariant ⟨[0, 1], [("A", [Val.fin 100, Val.fin 101]),
    ("B", [Val.fin 50, Val.fin 51])]⟩ "A" 2 (by norm_num) 1000

/-- Claim C2 (counterexample): a ticker contributes its session bars, yet
the first value of its percent series is `(close0/open0 - 1) * 100 = 5`,
not `0.0`, because the first bar closed above its open. -/
theorem fetch_for_first_not_zero :
    fetch_for (fun _ => some ⟨⟨some 540, [-540]⟩, [Val.fin 100], [Val.fin 105]⟩)
        ["A"] 0 = [("A", [(-540, Val.fin 5)])]
    ∧ Val.fin 5 ≠ Val.fin 0 := by
  have hd : jstDateOf (-540) = 0 := by decide
  constructor
  · norm_num [fetch_for, tickerPct, sessionRows, normalizeIdx, tz_convert, hd,
      Val.div, Val.sub, Val.neg, Val.add, Val.mul, List.filterMap_cons]
  · simp only [ne_eq, Val.fin.injEq]
    norm_num

/-- Claim C2 (amended): the first value of a contributing ticker's
percent series is `(close0/open0 - 1) * 100`; it equals `0.0` exactly in
the benign case where the session's first bar closes at its own open
(with a valid nonzero open price). -/
theorem tickerPct_first_zero_iff_flat (bars : Bars) (date0 : ℤ) (ts : ℤ) (q : ℚ)
    (rest : List (ℤ × Val × Val))
    (hrows : sessionRows bars date0 = (ts, Val.fin q, Val.fin q) :: rest)
    (hq : q ≠ 0) (hne : bars.idx.stamps.isEmpty = false) :
    ∃ s, tickerPct bars date0 = some s ∧ s.headD (0, Val.nan) = (ts, Val.fin 0) := by
  refine ⟨_, by rw [tickerPct, hne, hrows]; rfl, ?_⟩
  simp only [List.map_cons, List.headD_cons]
  norm_num [Val.div, hq, div_self hq, Val.sub, Val.neg, Val.add, Val.mul]

/-- Spot check of `tickerPct_first_zero_iff_flat` on the spec's scenario
(closes 100, 100, 105 with open 100). -/
theorem tickerPct_first_zero_spot :
    ∃ s, tickerPct ⟨⟨some 540, [-540, -535, -530]⟩,
        [Val.fin 100, Val.fin 100, Val.fin 100],
        [Val.fin 100, Val.fin 100, Val.fin 105]⟩ 0 = some s
      ∧ s.headD (0, Val.nan) = (-540, Val.fin 0) := by
  refine tickerPct_first_zero_iff_flat _ 0 (-540) 100
    [(-535, Val.fin 100, Val.fin 100), (-530, Val.fin 100, Val.fin 105)] ?_ (by norm_num) rfl
  have h1 : jstDateOf (-540) = 0 := by decide
  have h2 : jstDateOf (-535) = 0 := by decide
  have h3 : jstDateOf (-530) = 0 := by decide
  simp [sessionRows, normalizeIdx, tz_convert, h1, h2, h3]

/-- Ticker labels selected by `xsLevel1` are exactly the first-level
labels of the pairs carrying the requested field, with the cell values
never examined. -/
theorem xsLevel1_map_fst (field : String) :
    ∀ cols : List ((String × String) × List Val),
      (xsLevel1 field cols).map Prod.fst =
        (cols.filter (fun p => p.1.2 = field)).map (fun p => p.1.1) := by
  intro cols
  induction cols with
  | nil => simp [xsLevel1]
  | cons p ps ih =>
      by_cases hp : p.1.2 = field
      · simp [xsLevel1, hp, List.filterMap_cons] at ih ⊢
        exact ih
      · simp [xsLevel1, hp, List.filterMap_cons] at ih ⊢
        exact ih

/-- Claim C5 (counterexample): a ticker present in the response with an
all-missing column is kept in the extractor's result — not excluded —
and although zero tickers yield a usable series, the extractor returns
`ok` (it raises no usable-data error; no such error exists in the
source). -/
theorem download_daily_keeps_all_missing :
    download_daily ["T1"] (RawDaily.multi [(("T1", "Adj Close"), [Val.nan, Val.nan])])
      = .ok [("T1", [Val.nan, Val.nan])] := by
  simp [download_daily, xsLevel1, List.filterMap_cons]

/-- Claim C5 (amended): when the requested field label is present, the
extractor succeeds and its result holds one column per (ticker, field)
pair of the response — tickers absent from the response are absent, but a
present ticker is kept even with all-missing values, and no error is
raised regardless of how many tickers are usable. -/
theorem download_daily_presence (tickers : List String)
    (cols : List ((String × String) × List Val))
    (h : (cols.map (fun p => p.1.2)).contains "Adj Close" = true) :
    ∃ out, download_daily tickers (.multi cols) = .ok out
      ∧ out.map Prod.fst =
          (cols.filter (fun p => p.1.2 = "Adj Close")).map (fun p => p.1.1) := by
  refine ⟨xsLevel1 "Adj Close" cols, ?_, xsLevel1_map_fst "Adj Close" cols⟩
  show (if (cols.map (fun p => p.1.2)).contains "Adj Close" = true then
      Except.ok (xsLevel1 "Adj Close" cols) else
      if (cols.map (fun p => p.1.1)).contains "Adj Close" = true then
        Except.ok (xsLevel0 "Adj Close" cols) else
      if (cols.map (fun p => p.1.2)).contains "Close" = true then
        Except.ok (xsLevel1 "Close" cols) else
      if (cols.map (fun p => p.1.1)).contains "Close" = true then
        Except.ok (xsLevel0 "Close" cols) else Except.error "KeyError")
    = Except.ok (xsLevel1 "Adj Close" cols)
  rw [if_pos h]

/-- Spot check of `download_daily_presence`: the all-missing ticker T1 is
kept, the field-mismatched pair is dropped. -/
theorem download_daily_presence_spot :
    ∃ out, download_daily ["T1", "T2"]
        (RawDaily.multi [(("T1", "Adj Close"), [Val.nan]), (("T2", "Open"), [Val.fin 1])])
        = .ok out
      ∧ out.map Prod.fst = ["T1"] := by
  have h := download_daily_presence ["T1", "T2"]
    [(("T1", "Adj Close"), [Val.nan]), (("T2", "Open"), [Val.fin 1])] (by decide)
  simpa using h

/-- A ticker with no bar at a timestamp contributes the NaN cell there. -/
theorem lookupTS_not_mem (s : List (ℤ × Val)) (t : ℤ) (h : t ∉ s.map Prod.fst) :
    lookupTS s t = Val.nan := by
  unfold lookupTS
  have hf : s.find? (fun p => p.1 = t) = none := by
    rw [List.find?_eq_none]
    intro p hp
    simp only [decide_eq_true_eq]
    exact fun hpt => h (List.mem_map.mpr ⟨p, hp, hpt⟩)
  rw [hf]
  rfl

/-- A NaN cell inserted anywhere in a row does not change its
NaN-skipping mean. -/
theorem npMean_append_nan (a b : List Val) :
    npMean (a ++ Val.nan :: b) = npMean (a ++ b) := by
  unfold npMean
  simp [List.filter_append, Val.isNan]

/-- Folding cell addition over finite cells stays finite. -/
theorem foldl_add_fin (xs : List Val) : ∀ a : ℚ, (∀ v ∈ xs, ∃ q, v = Val.fin q) →
    ∃ s, xs.foldl Val.add (Val.fin a) = Val.fin s := by
  induction xs with
  | nil => intro a _; exact ⟨a, rfl⟩
  | cons x xs ih =>
      intro a h
      obtain ⟨q, hq⟩ := h x (by simp)
      subst hq
      simpa [Val.add] using ih (a + q) (fun v hv => h v (by simp [hv]))

/-- The NaN-skipping mean of a row of NaN-or-finite cells with at least
one non-NaN cell is finite. -/
theorem npMean_fin (l : List Val) (h1 : ∀ v ∈ l, v = Val.nan ∨ ∃ q, v = Val.fin q)
    (h2 : ∃ v ∈ l, v ≠ Val.nan) : ∃ x, npMean l = Val.fin x := by
  unfold npMean
  obtain ⟨w, hwl, hw⟩ := h2
  have hwf : w ∈ l.filter (fun v => !v.isNan) := by
    rw [List.mem_filter]
    refine ⟨hwl, ?_⟩
    cases w with
    | nan => exact absurd rfl hw
    | inf => rfl
    | ninf => rfl
    | fin q => rfl
  have hne : l.filter (fun v => !v.isNan) ≠ [] := List.ne_nil_of_mem hwf
  rw [if_neg (by simpa [List.isEmpty_iff] using hne)]
  have hall : ∀ v ∈ l.filter (fun v => !v.isNan), ∃ q, v = Val.fin q := by
    intro v hv
    rw [List.mem_filter] at hv
    rcases h1 v hv.1 with h | h
    · rw [h] at hv; simp [Val.isNan] at hv
    · exact h
  obtain ⟨s, hs⟩ := foldl_add_fin _ 0 hall
  rw [show sumVals (l.filter fun v => !v.isNan) = Val.fin s from hs]
  have hlen : (((l.filter fun v => !v.isNan).length : ℚ)) ≠ 0 := by
    have : (l.filter fun v => !v.isNan).length ≠ 0 := by
      simpa [List.length_eq_zero] using hne
    exact_mod_cast this
  exact ⟨s / ((l.filter fun v => !v.isNan).length : ℚ), by simp [Val.div, hlen]⟩

/-- Claim C7 (amended): removing one ticker changes the outer-join basket
average only at timestamps where that ticker had data (at any timestamp
it does not cover, the average over the remaining tickers is unchanged);
and at a timestamp where the cells are NaN-or-finite and some remaining
ticker reports, both the smaller and the larger basket averages are
defined and finite. -/
theorem meanAt_remove_ticker (pre post : List (String × List (ℤ × Val)))
    (f : String × List (ℤ × Val)) (t : ℤ) :
    (t ∉ f.2.map Prod.fst → meanAt (pre ++ post) t = meanAt (pre ++ f :: post) t)
    ∧ ((∀ g ∈ pre ++ f :: post,
          lookupTS g.2 t = Val.nan ∨ ∃ q, lookupTS g.2 t = Val.fin q) →
       (∃ g ∈ pre ++ post, lookupTS g.2 t ≠ Val.nan) →
       (∃ x, meanAt (pre ++ post) t = Val.fin x)
         ∧ ∃ y, meanAt (pre ++ f :: post) t = Val.fin y) := by
  have hsub : ∀ g, g ∈ pre ++ post → g ∈ pre ++ f :: post := by
    intro g hg
    rw [List.mem_append] at hg ⊢
    rcases hg with hg | hg
    · exact Or.inl hg
    · exact Or.inr (List.mem_cons_of_mem f hg)
  constructor
  · intro hnot
    unfold meanAt
    rw [List.map_append, List.map_append, List.map_cons, lookupTS_not_mem f.2 t hnot]
    exact (npMean_append_nan _ _).symm
  · intro h1 h2
    constructor
    · apply npMean_fin
      · intro v hv
        obtain ⟨g, hg, hgv⟩ := List.mem_map.mp hv
        rw [← hgv]
        exact h1 g (hsub g hg)
      · obtain ⟨g, hg, hgne⟩ := h2
        exact ⟨lookupTS g.2 t, List.mem_map.mpr ⟨g, hg, rfl⟩, hgne⟩
    · apply npMean_fin
      · intro v hv
        obtain ⟨g, hg, hgv⟩ := List.mem_map.mp hv
        rw [← hgv]
        exact h1 g hg
      · obtain ⟨g, hg, hgne⟩ := h2
        exact ⟨lookupTS g.2 t, List.mem_map.mpr ⟨g, hsub g hg, rfl⟩, hgne⟩

/-- Spot check of `meanAt_remove_ticker`: removing ticker C, which has no
bar at timestamp 0, leaves the average there unchanged, and both averages
are finite. -/
theorem meanAt_remove_ticker_spot :
    meanAt [("A", [(0, Val.fin 1)])] 0
        = meanAt [("A", [(0, Val.fin 1)]), ("C", [(5, Val.fin 4)])] 0
    ∧ (∃ x, meanAt [("A", [(0, Val.fin 1)])] 0 = Val.fin x)
    ∧ (∃ y, meanAt [("A", [(0, Val.fin 1)]), ("C", [(5, Val.fin 4)])] 0 = Val.fin y) := by
  have hA : lookupTS [(0, Val.fin 1)] 0 = Val.fin 1 := by
    simp [lookupTS, List.find?]
  have hC : lookupTS [(5, Val.fin 4)] 0 = Val.nan := by
    simp [lookupTS, List.find?]
  have h := meanAt_remove_ticker [("A", [(0, Val.fin 1)])] [] ("C", [(5, Val.fin 4)]) 0
  have h1 : ∀ g ∈ [("A", [(0, Val.fin 1)])] ++ ("C", [(5, Val.fin 4)]) :: [],
      lookupTS g.2 0 = Val.nan ∨ ∃ q, lookupTS g.2 0 = Val.fin q := by
    intro g hg
    rcases List.mem_cons.mp hg with hg | hg
    · subst hg; exact Or.inr ⟨1, hA⟩
    · rcases List.mem_cons.mp hg with hg | hg
      · subst hg; exact Or.inl hC
      · cases hg
  have h2 : ∃ g ∈ [("A", [(0, Val.fin 1)])] ++ ([] : List (String × List (ℤ × Val))),
      lookupTS g.2 0 ≠ Val.nan := by
    refine ⟨("A", [(0, Val.fin 1)]), by simp, ?_⟩
    rw [hA]
    simp
  exact ⟨h.1 (by decide), (h.2 h1 h2).1, (h.2 h1 h2).2⟩

/-- Claim C7 (counterexample): timestamp 0 is shared by tickers A and B
(it is not unique to C), yet removing C changes the basket average there
from 3 to 3/2. -/
theorem meanSeries_remove_changes_shared :
    meanSeries [("A", [(0, Val.fin 1)]), ("B", [(0, Val.fin 2)])] = [(0, Val.fin (3/2))]
    ∧ meanSeries [("A", [(0, Val.fin 1)]), ("B", [(0, Val.fin 2)]),
        ("C", [(0, Val.fin 6)])] = [(0, Val.fin 3)]
    ∧ Val.fin (3/2) ≠ Val.fin 3 := by
  refine ⟨?_, ?_, ?_⟩ <;>
    norm_num [meanSeries, unionTS, insertTS, meanAt, npMean, lookupTS, sumVals,
      Val.add, Val.isNan, Val.div, List.find?, Val.fin.injEq]

/-- Claim C6: on every run whose daily extraction succeeds, the stats
record holds the rounded last value of the intraday basket series (0.0
when that series is empty) and the rounded last value of the level series
(absent when that series is empty), the series being exactly the ones the
pipeline builds from the collaborator inputs. -/
theorem mainRun_stats (tickers : List String) (baseDate : ℤ) (bl : ℚ)
    (rawDates : List ℤ) (raw : RawDaily) (fetch : String → Option Bars) (today : ℤ)
    (cols : List (String × List Val))
    (h : download_daily tickers raw = .ok cols) :
    (mainRun tickers baseDate bl rawDates raw fetch today).2 =
      some { pct_intraday :=
               (if (if (download_intraday fetch tickers today).isEmpty then []
                    else meanSeries (download_intraday fetch tickers today)).isEmpty
                then Val.fin 0
                else round2 (lastVal (if (download_intraday fetch tickers today).isEmpty
                  then [] else meanSeries (download_intraday fetch tickers today)))),
             last_level :=
               (if (build_levels_eq (mainDaily baseDate rawDates cols) bl).isEmpty then none
                else some (round2 (lastVal
                  (build_levels_eq (mainDaily baseDate rawDates cols) bl)))),
             tickers := tickers } := by
  simp only [mainRun, h]

/-- Spot check of `mainRun_stats` on a concrete run. -/
theorem mainRun_stats_spot :
    (mainRun ["A"] 0 1000 [0, 1]
        (RawDaily.flat [("Adj Close", [Val.fin 100, Val.fin 110])])
        (fun _ => none) 5).2 =
      some { pct_intraday :=
               (if (if (download_intraday (fun _ => none) ["A"] 5).isEmpty then []
                    else meanSeries (download_intraday (fun _ => none) ["A"] 5)).isEmpty
                then Val.fin 0
                else round2 (lastVal (if (download_intraday (fun _ => none) ["A"] 5).isEmpty
                  then [] else meanSeries (download_intraday (fun _ => none) ["A"] 5)))),
             last_level :=
               (if (build_levels_eq
                    (mainDaily 0 [0, 1] [("A", [Val.fin 100, Val.fin 110])]) 1000).isEmpty
                then none
                else some (round2 (lastVal (build_levels_eq
                  (mainDaily 0 [0, 1] [("A", [Val.fin 100, Val.fin 110])]) 1000)))),
             tickers := ["A"] } :=
  mainRun_stats ["A"] 0 1000 [0, 1]
    (RawDaily.flat [("Adj Close", [Val.fin 100, Val.fin 110])]) (fun _ => none) 5
    [("A", [Val.fin 100, Val.fin 110])]
    (by simp [download_daily, List.find?])

/-- Claim C8 (amended): a fatal error in the daily extraction aborts the
run before any artifact is written, but on the success path the
orchestrator is write-as-you-go: the level CSV write event precedes the
intraday computation in every successful trace. -/
theorem mainRun_write_order (tickers : List String) (baseDate : ℤ) (bl : ℚ)
    (rawDates : List ℤ) (raw : RawDaily) (fetch : String → Option Bars) (today : ℤ) :
    (∀ e, download_daily tickers raw = .error e →
        (mainRun tickers baseDate bl rawDates raw fetch today).1 = [])
    ∧ (∀ cols, download_daily tickers raw = .ok cols →
        ∃ rest, (mainRun tickers baseDate bl rawDates raw fetch today).1 =
          Event.computeLevels :: Event.write "skytech_3_levels.csv" ::
            Event.computeIntraday :: rest) := by
  constructor
  · intro e he
    simp [mainRun, he]
  · intro cols hc
    exact ⟨_, by simp only [mainRun, hc]; rfl⟩

/-- Spot check of `mainRun_write_order` at a failing and at a succeeding
extraction. -/
theorem mainRun_write_order_spot :
    (mainRun ["A"] 0 1000 [] (RawDaily.flat [("Volume", [Val.fin 1])])
        (fun _ => none) 5).1 = []
    ∧ ∃ rest, (mainRun ["A"] 0 1000 [0, 1]
        (RawDaily.flat [("Adj Close", [Val.fin 100, Val.fin 110])])
        (fun _ => none) 5).1 =
      Event.computeLevels :: Event.write "skytech_3_levels.csv" ::
        Event.computeIntraday :: rest :=
  ⟨(mainRun_write_order ["A"] 0 1000 [] (RawDaily.flat [("Volume", [Val.fin 1])])
      (fun _ => none) 5).1 "KeyError" (by simp [download_daily, List.find?]),
   (mainRun_write_order ["A"] 0 1000 [0, 1]
      (RawDaily.flat [("Adj Close", [Val.fin 100, Val.fin 110])])
      (fun _ => none) 5).2 [("A", [Val.fin 100, Val.fin 110])]
      (by simp [download_daily, List.find?])⟩

/-- Claim C8 (counterexample): in this successful concrete run the level
CSV write event occurs strictly before the intraday computation event —
artifacts are not all computed before any is written. -/
theorem mainRun_writes_levels_before_intraday :
    (mainRun ["A"] 0 1000 [0, 1]
        (RawDaily.flat [("Adj Close", [Val.fin 100, Val.fin 110])])
        (fun _ => none) 5).1
      = [Event.computeLevels, Event.write "skytech_3_levels.csv", Event.computeIntraday,
         Event.computeStats, Event.write "skytech_3_stats.json", Event.write "last_run.txt",
         Event.write "skytech_3_post_intraday.txt", Event.write "post_intraday.txt"] := by
  norm_num [mainRun, download_daily, download_intraday, fetch_for, List.find?,
    List.filterMap_cons]
